import Mathlib

/-!
Verification of the custom-writing-assistant proofreader.

Part 1 models the browser frontend (`static/script.js`) as pure state
transitions over the DOM pieces the script touches, with an explicit event
trace (alerts, HTTP requests, console errors) and an explicit model of the
fetch outcome and clipboard environment.

Part 2 models the correction pipeline (sentence segmentation, word diff,
assembly).  The backend source is not part of the repository snapshot, so
those definitions are modelled from the specification, as marked on each
definition.
-/

/-- Whitespace test shared by the trim model, the segmenter and the
tokenizer. -/
def isWsC (c : Char) : Bool := c.isWhitespace

/-- Removal of leading and trailing whitespace from a character list,
modelling both JavaScript String.prototype.trim (script.js line 42) and
the trimming of spec section 4.1. -/
def trimChars (l : List Char) : List Char :=
  ((l.dropWhile isWsC).reverse.dropWhile isWsC).reverse

/-- Model of JavaScript String.prototype.trim over Lean strings. -/
def jsTrim (s : String) : String := (trimChars s.data).asString

/-- The pieces of DOM state `static/script.js` reads and writes. -/
structure AppState where
  textInputValue : String
  resultsVisible : Bool
  correctionsContainerVisible : Bool
  acceptAllVisible : Bool
  rejectAllVisible : Bool
  correctionsCountText : String
  finalTextContent : String
  proofreadBtnDisabled : Bool
  btnTextVisible : Bool
  spinnerVisible : Bool
  deriving DecidableEq, Repr

instance : Inhabited AppState :=
  ⟨⟨"", false, true, true, true, "", "", false, true, false⟩⟩

/-- Outcome of the `fetch('/api/proofread', ...)` call made by
`proofreadText`: a parsed JSON body with `final_text` and `total_changes`,
a response with a non-ok status, or a thrown error (network failure or a
body that fails to parse). -/
inductive FetchOutcome where
  | ok (final_text : String) (total_changes : Nat)
  | httpError (status : Nat)
  | fetchThrow
  deriving DecidableEq, Repr

/-- Observable events of a `proofreadText` run: a browser alert, an HTTP
request whose JSON body is an association list of string fields, a
`console.error`, and the smooth scroll to the results section. -/
inductive FrontendEvent where
  | alert (msg : String)
  | request (body : List (String × String))
  | consoleError
  | scrollToResults
  deriving DecidableEq, Repr

/-- The JSON body built by `JSON.stringify({ text: text, llm_provider: 'mock' })`
in `proofreadText` (script.js lines 56-59). -/
def requestBody (text : String) : List (String × String) :=
  [("text", text), ("llm_provider", "mock")]

/-- `setLoading` (script.js lines 77-86): disables the button while loading
and swaps the label for the spinner. -/
def setLoading (st : AppState) (isLoading : Bool) : AppState :=
  { st with
    proofreadBtnDisabled := isLoading
    btnTextVisible := !isLoading
    spinnerVisible := isLoading }

/-- `showFinalResult` (script.js lines 88-101): hides the diff UI, sets the
change-count label and the final text, and shows the results section. -/
def showFinalResult (st : AppState) (finalText : String) (totalChanges : Nat) : AppState :=
  { st with
    correctionsContainerVisible := false
    acceptAllVisible := false
    rejectAllVisible := false
    correctionsCountText := "Total changes: " ++ toString totalChanges
    finalTextContent := finalText
    resultsVisible := true }

/-- `proofreadText` (script.js lines 41-75): trims the input, rejects empty
text with an alert, otherwise posts the trimmed text to `/api/proofread`
and either shows the final result or alerts on failure, always clearing the
loading state afterwards (the `finally` block). -/
def proofreadText (st : AppState) (outcome : FetchOutcome) :
    AppState × List FrontendEvent :=
  let text := jsTrim st.textInputValue
  if text = "" then
    (st, [.alert "Please enter some text to proofread."])
  else
    let st1 := setLoading st true
    match outcome with
    | .ok ft tc =>
        (setLoading (showFinalResult st1 ft tc) false,
         [.request (requestBody text), .scrollToResults])
    | .httpError _ =>
        (setLoading st1 false,
         [.request (requestBody text), .consoleError,
          .alert "An error occurred while proofreading. Please try again."])
    | .fetchThrow =>
        (setLoading st1 false,
         [.request (requestBody text), .consoleError,
          .alert "An error occurred while proofreading. Please try again."])

/-- The request bodies sent during a run, in order. -/
def requestsSent (evs : List FrontendEvent) : List (List (String × String)) :=
  evs.filterMap fun e =>
    match e with
    | .request b => some b
    | _ => none

/-- Clipboard environment for `copyFinalText`: whether
`navigator.clipboard && window.isSecureContext` holds, whether
`navigator.clipboard.writeText` resolves, and whether
`document.execCommand('copy')` returns `true`. -/
structure CopyEnv where
  modernAvailable : Bool
  modernWriteOk : Bool
  execCopyOk : Bool
  deriving DecidableEq, Repr

/-- Observable events of a `copyFinalText` run: a successful copy of some
text to the clipboard, the `Copied!` button feedback of `showCopySuccess`,
and the failure alert. -/
inductive CopyEvent where
  | copied (text : String)
  | copySuccessFeedback
  | copyFailAlert
  deriving DecidableEq, Repr

/-- `copyTextFallback` (script.js lines 137-160): copies via a temporary
textarea and `document.execCommand('copy')`; returns `none` when it throws
(`execCommand` returned `false`). -/
def copyTextFallback (text : String) (env : CopyEnv) : Option (List CopyEvent) :=
  if env.execCopyOk then some [.copied text] else none

/-- `copyFinalText` (script.js lines 109-135): tries the modern clipboard
API when available, falls back to `copyTextFallback`, retries the fallback
from the catch block, and alerts only when every attempt failed. -/
def copyFinalText (st : AppState) (env : CopyEnv) : List CopyEvent :=
  let textToCopy := st.finalTextContent
  if env.modernAvailable then
    if env.modernWriteOk then
      [.copied textToCopy, .copySuccessFeedback]
    else
      match copyTextFallback textToCopy env with
      | some evs => evs ++ [.copySuccessFeedback]
      | none => [.copyFailAlert]
  else
    match copyTextFallback textToCopy env with
    | some evs => evs ++ [.copySuccessFeedback]
    | none =>
        match copyTextFallback textToCopy env with
        | some evs => evs ++ [.copySuccessFeedback]
        | none => [.copyFailAlert]

/-! ## Part 2: the correction pipeline, modelled from the specification -/

/-- Modelled from the spec: SentenceSegmenter is absent from the repository
snapshot (the FastAPI backend `app.py` is not included); sentence-terminal
punctuation is `.`, `!` or `?` (spec section 4.1). -/
def isTerminalPunct (c : Char) : Bool := c = '.' || c = '!' || c = '?'

/-- Modelled from the spec: the segmentation scan over the trimmed text
(spec section 4.1).  A sentence ends after a run of one-or-more terminal
punctuation characters followed by whitespace; the following whitespace
run is the separator, not part of either sentence.  The scan accumulates
the current sentence in reverse in `acc` and returns
(sentence, following separator) pairs. -/
def segAux (acc : List Char) (l : List Char) : List (List Char × List Char) :=
  match l with
  | [] => if acc.isEmpty then [] else [(acc.reverse, [])]
  | [c] => [((c :: acc).reverse, [])]
  | c :: d :: cs =>
    if isTerminalPunct c && d.isWhitespace then
      ((c :: acc).reverse, d :: cs.takeWhile isWsC) :: segAux [] (cs.dropWhile isWsC)
    else
      segAux (c :: acc) (d :: cs)
termination_by l.length
decreasing_by
  · have h1 : (cs.dropWhile isWsC).length ≤ cs.length :=
      (List.dropWhile_suffix isWsC).length_le
    simp only [List.length_cons]; omega
  · simp only [List.length_cons]; omega

/-- SentenceSpan (spec section 3): a sentence with positional metadata. -/
structure SentenceSpan where
  text : List Char
  startOffset : Nat
  endOffset : Nat
  sentenceIndex : Nat
  deriving DecidableEq, Repr, Inhabited

/-- Modelled from the spec: turn the (sentence, separator) pairs of the
scan into SentenceSpans with offsets into the original text, numbering
sentences from `idx`. -/
def spansFromPairs (base idx : Nat) : List (List Char × List Char) → List SentenceSpan
  | [] => []
  | (txt, sep) :: ps =>
      ⟨txt, base, base + txt.length, idx⟩ ::
        spansFromPairs (base + txt.length + sep.length) (idx + 1) ps

/-- Modelled from the spec: `SentenceSegmenter.segment`
(spec section 4.1), absent from the repository snapshot.  Offsets start
after the leading whitespace of the input. -/
def segmentText (T : List Char) : List SentenceSpan :=
  spansFromPairs (T.takeWhile isWsC).length 0 (segAux [] (trimChars T))

/-- The substring of `T` between offsets `a` (inclusive) and `b`
(exclusive). -/
def sliceAt (T : List Char) (a b : Nat) : List Char := (T.drop a).take (b - a)

/-- Reconstruction of a text from spans: concatenate the span texts with
the substrings of `T` between consecutive spans' offsets (the original
inter-span separators). -/
def reconstructSpans (T : List Char) : List SentenceSpan → List Char
  | [] => []
  | [s] => s.text
  | s :: s2 :: ss => s.text ++ sliceAt T s.endOffset s2.startOffset ++ reconstructSpans T (s2 :: ss)

/-- Concatenation of all (sentence, separator) pairs of the scan. -/
def concatPairs (ps : List (List Char × List Char)) : List Char :=
  ps.foldr (fun p r => p.1 ++ p.2 ++ r) []

/-- Concatenation of the pairs, dropping the separator of the last pair:
this is what reconstruction from spans yields. -/
def joinSpansAux : List (List Char × List Char) → List Char
  | [] => []
  | [p] => p.1
  | p :: q :: ps => p.1 ++ p.2 ++ joinSpansAux (q :: ps)

/-- A character list that does not end in whitespace. -/
def noTrailingWs (l : List Char) : Prop :=
  ∀ c, l.getLast? = some c → isWsC c = false

/-- Modelled from the spec: word tokenization by whitespace-splitting
(spec section 4.3), absent from the repository snapshot.  Maximal runs of
non-whitespace characters become tokens; whitespace is discarded. -/
def tokenizeChars : List Char → List (List Char)
  | [] => []
  | c :: cs =>
    if isWsC c then tokenizeChars cs
    else
      match cs, tokenizeChars cs with
      | d :: _, t :: ts => if isWsC d then [c] :: t :: ts else (c :: t) :: ts
      | _, _ => [[c]]

/-- Tokenization of a sentence string into word tokens. -/
def tokenize (s : String) : List String :=
  (tokenizeChars s.data).map List.asString

/-- ChangeOp type tags (spec section 3). -/
inductive ChangeType where
  | equal
  | delete
  | insert
  deriving DecidableEq, Repr

/-- ChangeOp (spec section 3): one unit of a word-level diff; `position`
is the index within the emitted changes list. -/
structure ChangeOp where
  type : ChangeType
  text : String
  position : Nat
  deriving DecidableEq, Repr

/-- Modelled from the spec: length of a longest common subsequence of two
token sequences (spec section 4.3), absent from the repository snapshot. -/
def lcsLen : List String → List String → Nat
  | [], _ => 0
  | _ :: _, [] => 0
  | a :: as, b :: bs =>
    if a = b then lcsLen as bs + 1
    else max (lcsLen as (b :: bs)) (lcsLen (a :: as) bs)
termination_by xs ys => xs.length + ys.length

/-- Modelled from the spec: the LCS-based diff over token sequences
(spec section 4.3), absent from the repository snapshot.  Matched tokens
become `equal`, original-only tokens `delete`, corrected-only tokens
`insert`; on a tie between dropping from the original and dropping from
the corrected sequence, the original is consumed first (earliest-match
tie-break), so deletes of a mismatch block precede its inserts. -/
def diffTokens : List String → List String → List (ChangeType × String)
  | [], [] => []
  | [], b :: bs => (ChangeType.insert, b) :: diffTokens [] bs
  | a :: as, [] => (ChangeType.delete, a) :: diffTokens as []
  | a :: as, b :: bs =>
    if a = b then (ChangeType.equal, a) :: diffTokens as bs
    else if lcsLen (a :: as) bs ≤ lcsLen as (b :: bs) then
      (ChangeType.delete, a) :: diffTokens as (b :: bs)
    else
      (ChangeType.insert, b) :: diffTokens (a :: as) bs
termination_by xs ys => xs.length + ys.length

/-- Sequential position numbering of emitted ops, starting at `n`
(spec section 4.3: positions are assigned across the full changes list in
emission order, starting at 0). -/
def addPositionsFrom (n : Nat) : List (ChangeType × String) → List ChangeOp
  | [] => []
  | (t, s) :: rest => ⟨t, s, n⟩ :: addPositionsFrom (n + 1) rest

/-- Modelled from the spec: `WordDiffEngine.diff`
(spec section 4.3), absent from the repository snapshot. -/
def wordDiff (original corrected : String) : List ChangeOp :=
  addPositionsFrom 0 (diffTokens (tokenize original) (tokenize corrected))

/-- The `delete` and `equal` tokens of a raw op sequence, in emission
order. -/
def sourceTokens (ops : List (ChangeType × String)) : List String :=
  ops.filterMap fun op => if op.1 = ChangeType.insert then none else some op.2

/-- The `insert` and `equal` tokens of a raw op sequence, in emission
order. -/
def targetTokens (ops : List (ChangeType × String)) : List String :=
  ops.filterMap fun op => if op.1 = ChangeType.delete then none else some op.2

/-- The `delete` and `equal` tokens of a ChangeOp sequence, in emission
order. -/
def keptOriginalTokens (ops : List ChangeOp) : List String :=
  ops.filterMap fun op => if op.type = ChangeType.insert then none else some op.text

/-- The `insert` and `equal` tokens of a ChangeOp sequence, in emission
order. -/
def keptCorrectedTokens (ops : List ChangeOp) : List String :=
  ops.filterMap fun op => if op.type = ChangeType.delete then none else some op.text

/-- One run of the diff algorithm of spec section 4.3, as a derivation:
each constructor is one emission step, with the LCS comparison and the
earliest-match tie-break as side conditions.  Any sequence of ChangeOps a
run can produce is related to the inputs by this relation. -/
inductive DiffRun : List String → List String → List (ChangeType × String) → Prop where
  | done : DiffRun [] [] []
  | insertOnly {b : String} {bs : List String} {ops} :
      DiffRun [] bs ops → DiffRun [] (b :: bs) ((ChangeType.insert, b) :: ops)
  | deleteOnly {a : String} {as : List String} {ops} :
      DiffRun as [] ops → DiffRun (a :: as) [] ((ChangeType.delete, a) :: ops)
  | matched {a b : String} {as bs : List String} {ops} :
      a = b → DiffRun as bs ops →
      DiffRun (a :: as) (b :: bs) ((ChangeType.equal, a) :: ops)
  | deleteStep {a b : String} {as bs : List String} {ops} :
      a ≠ b → lcsLen (a :: as) bs ≤ lcsLen as (b :: bs) →
      DiffRun as (b :: bs) ops →
      DiffRun (a :: as) (b :: bs) ((ChangeType.delete, a) :: ops)
  | insertStep {a b : String} {as bs : List String} {ops} :
      a ≠ b → lcsLen as (b :: bs) < lcsLen (a :: as) bs →
      DiffRun (a :: as) bs ops →
      DiffRun (a :: as) (b :: bs) ((ChangeType.insert, b) :: ops)

/-- Provider failure kinds (spec section 4.2). -/
inductive ProviderError where
  | providerUnavailable
  | providerTimeout
  deriving DecidableEq, Repr

/-- Modelled from the spec: a CorrectionProvider capability
(spec section 4.2), absent from the repository snapshot: given one
sentence it returns a corrected sentence or fails. -/
def CorrectionProvider : Type := String → Except ProviderError String

/-- SentenceDiff (spec section 3). -/
structure SentenceDiff where
  original : String
  corrected : String
  changes : List ChangeOp
  sentenceIndex : Nat
  deriving DecidableEq, Repr, Inhabited

/-- ProofreadResult (spec section 3). -/
structure ProofreadResult where
  sentenceDiffs : List SentenceDiff
  finalText : String
  totalChanges : Nat
  deriving DecidableEq, Repr

/-- Modelled from the spec: per-sentence graceful degradation
(spec section 4.2): on provider failure the sentence is treated as
unchanged. -/
def correctSpan (provider : CorrectionProvider) (s : String) : String :=
  match provider s with
  | Except.ok c => c
  | Except.error _ => s

/-- Modelled from the spec: build the SentenceDiff of one span
(spec section 4.4). -/
def buildDiff (provider : CorrectionProvider) (span : SentenceSpan) : SentenceDiff :=
  let original := span.text.asString
  let corrected := correctSpan provider original
  ⟨original, corrected, wordDiff original corrected, span.sentenceIndex⟩

/-- The number of non-`equal` ChangeOps of a SentenceDiff. -/
def countNonEqual (d : SentenceDiff) : Nat :=
  (d.changes.filter fun op => op.type ≠ ChangeType.equal).length

/-- Modelled from the spec: FinalTextReconstructor in default mode
(spec section 4.5): corrected sentences joined with a single space, in
sentence order. -/
def reconstructFinal (diffs : List SentenceDiff) : String :=
  String.intercalate " " (diffs.map (·.corrected))

/-- Modelled from the spec: `SentenceDiffAssembler.assemble`
(spec section 4.4), absent from the repository snapshot.  The running
change total is accumulated while the diffs are built. -/
def assemble (provider : CorrectionProvider) (text : String) : ProofreadResult :=
  let spans := segmentText text.data
  let folded : List SentenceDiff × Nat := spans.foldl
    (fun (acc : List SentenceDiff × Nat) (span : SentenceSpan) =>
      let d := buildDiff provider span
      (acc.1 ++ [d], acc.2 + countNonEqual d))
    ([], 0)
  ⟨folded.1, reconstructFinal folded.1, folded.2⟩

/-- A provider that always fails, used for concrete runs of the
graceful-degradation path. -/
def failingProvider : CorrectionProvider :=
  fun _ => Except.error ProviderError.providerUnavailable

/-! ## Supporting lemmas -/

lemma concatPairs_cons (p : List Char × List Char) (ps : List (List Char × List Char)) :
    concatPairs (p :: ps) = p.1 ++ p.2 ++ concatPairs ps := rfl

lemma segAux_concat (acc l : List Char) :
    concatPairs (segAux acc l) = acc.reverse ++ l := by
  induction acc, l using segAux.induct with
  | case1 acc h => simp [segAux, concatPairs, h, List.isEmpty_iff.mp h]
  | case2 acc h => simp [segAux, concatPairs, h]
  | case3 acc c => simp [segAux, concatPairs]
  | case4 acc c d cs h ih =>
      rw [segAux, if_pos h, concatPairs_cons, ih]
      simp [List.takeWhile_append_dropWhile]
  | case5 acc c d cs h ih =>
      rw [segAux, if_neg h, ih]
      simp

lemma segAux_ne_nil (acc l : List Char) (h : acc ≠ [] ∨ l ≠ []) :
    segAux acc l ≠ [] := by
  induction acc, l using segAux.induct with
  | case1 acc hemp =>
      rcases h with h | h
      · exact absurd (List.isEmpty_iff.mp hemp) h
      · exact absurd rfl h
  | case2 acc hemp => simp [segAux, hemp]
  | case3 acc c => simp [segAux]
  | case4 acc c d cs hc ih => simp [segAux, hc]
  | case5 acc c d cs hc ih =>
      rw [segAux, if_neg hc]
      exact ih (Or.inl (List.cons_ne_nil c acc))

lemma mem_of_getLast?_eq {l : List Char} {a : Char} (h : l.getLast? = some a) : a ∈ l := by
  obtain ⟨hne, rfl⟩ := List.mem_getLast?_eq_getLast (l := l) (x := a) h
  exact List.getLast_mem hne

lemma suffix_getLast?_eq {s l : List Char} (hs : s <:+ l) (hne : s ≠ []) :
    l.getLast? = s.getLast? := by
  obtain ⟨t, rfl⟩ := hs
  rw [List.getLast?_append]
  cases hgl : s.getLast? with
  | none => exact absurd (List.getLast?_eq_none_iff.mp hgl) hne
  | some c => simp [Option.or]

lemma head?_dropWhile_not (p : Char → Bool) (l : List Char) {c : Char}
    (h : (l.dropWhile p).head? = some c) : p c = false := by
  induction l with
  | nil => simp [List.dropWhile] at h
  | cons a as ih =>
      rw [List.dropWhile_cons] at h
      by_cases hp : p a
      · rw [if_pos hp] at h; exact ih h
      · rw [if_neg hp] at h
        simp only [List.head?_cons, Option.some.injEq] at h
        subst h
        exact Bool.eq_false_iff.mpr hp

lemma noTrailingWs_trimChars (T : List Char) : noTrailingWs (trimChars T) := by
  intro c hc
  rw [trimChars, List.getLast?_reverse] at hc
  exact head?_dropWhile_not _ _ hc

lemma segAux_joinSpans (acc l : List Char) :
    noTrailingWs l → joinSpansAux (segAux acc l) = acc.reverse ++ l := by
  induction acc, l using segAux.induct with
  | case1 acc h => intro _; simp [segAux, h, List.isEmpty_iff.mp h, joinSpansAux]
  | case2 acc h => intro _; simp [segAux, h, joinSpansAux]
  | case3 acc c => intro _; simp [segAux, joinSpansAux]
  | case4 acc c d cs hc ih =>
      intro hl
      have hdws : d.isWhitespace = true := by
        have := hc
        simp only [Bool.and_eq_true] at this
        exact this.2
      have hbody : cs.dropWhile isWsC ≠ [] := by
        intro hnil
        have hallws : ∀ x ∈ cs, isWsC x = true := List.dropWhile_eq_nil_iff.mp hnil
        cases hcs : cs with
        | nil =>
            have : (c :: d :: cs).getLast? = some d := by simp [hcs]
            have := hl d this
            rw [isWsC] at this
            exact absurd hdws (by simp [this])
        | cons e cs2 =>
            have hcsne : cs ≠ [] := by simp [hcs]
            cases hgl : cs.getLast? with
            | none => exact absurd (List.getLast?_eq_none_iff.mp hgl) hcsne
            | some x =>
                have hxcs : x ∈ cs := mem_of_getLast?_eq hgl
                have hxl : (c :: d :: cs).getLast? = some x := by
                  rw [List.getLast?_cons_cons,
                    suffix_getLast?_eq (List.suffix_cons d cs) hcsne]
                  exact hgl
                have := hl x hxl
                exact absurd (hallws x hxcs) (by simp [this])
      have htail : segAux [] (cs.dropWhile isWsC) ≠ [] :=
        segAux_ne_nil _ _ (Or.inr hbody)
      obtain ⟨q, ps, hq⟩ := List.exists_cons_of_ne_nil htail
      have hsuffix : cs.dropWhile isWsC <:+ c :: d :: cs :=
        (List.dropWhile_suffix isWsC).trans
          ((List.suffix_cons d cs).trans (List.suffix_cons c (d :: cs)))
      have hntw : noTrailingWs (cs.dropWhile isWsC) := by
        intro x hx
        exact hl x (by rw [suffix_getLast?_eq hsuffix hbody]; exact hx)
      rw [segAux, if_pos hc, hq, joinSpansAux, ← hq, ih hntw]
      simp [List.takeWhile_append_dropWhile]
  | case5 acc c d cs hc ih =>
      intro hl
      have hl2 : noTrailingWs (d :: cs) := by
        intro x hx
        exact hl x (by rw [List.getLast?_cons_cons]; exact hx)
      rw [segAux, if_neg hc, ih hl2]
      simp

lemma drop_of_drop_append {T pre rest : List Char} {base : Nat}
    (h : T.drop base = pre ++ rest) : T.drop (base + pre.length) = rest := by
  have h2 := List.drop_drop pre.length base T
  rw [h, List.drop_left] at h2
  exact h2.symm

lemma reconstruct_spansFromPairs (ps : List (List Char × List Char)) :
    ∀ (base idx : Nat) (T tail : List Char),
      T.drop base = concatPairs ps ++ tail →
      reconstructSpans T (spansFromPairs base idx ps) = joinSpansAux ps := by
  induction ps with
  | nil => intro base idx T tail h; rfl
  | cons p ps ih =>
      obtain ⟨txt, sep⟩ := p
      intro base idx T tail h
      cases ps with
      | nil => rfl
      | cons q ps2 =>
          obtain ⟨qt, qs⟩ := q
          have h0 : T.drop base = txt ++ (sep ++ (concatPairs ((qt, qs) :: ps2) ++ tail)) := by
            rw [h, concatPairs_cons]
            simp [List.append_assoc]
          have h1 : T.drop (base + txt.length) =
              sep ++ (concatPairs ((qt, qs) :: ps2) ++ tail) :=
            drop_of_drop_append h0
          have h2 : T.drop (base + txt.length + sep.length) =
              concatPairs ((qt, qs) :: ps2) ++ tail :=
            drop_of_drop_append h1
          have hslice : sliceAt T (base + txt.length) (base + txt.length + sep.length) = sep := by
            rw [sliceAt, h1, Nat.add_sub_cancel_left]
            exact List.take_left sep _
          have hih := ih (base + txt.length + sep.length) (idx + 1) T tail h2
          simp only [spansFromPairs, reconstructSpans] at *
          rw [hslice, hih]
          simp [joinSpansAux]

lemma drop_takeWhile_eq_dropWhile (p : Char → Bool) (l : List Char) :
    l.drop (l.takeWhile p).length = l.dropWhile p := by
  have h := List.drop_left (l.takeWhile p) (l.dropWhile p)
  rw [List.takeWhile_append_dropWhile] at h
  exact h

lemma dropWhile_eq_trim_append (T : List Char) :
    T.dropWhile isWsC =
      trimChars T ++ ((T.dropWhile isWsC).reverse.takeWhile isWsC).reverse := by
  rw [trimChars, ← List.reverse_append, List.takeWhile_append_dropWhile, List.reverse_reverse]

lemma spansFromPairs_sentenceIndex (ps : List (List Char × List Char)) :
    ∀ (base idx j : Nat) (hj : j < (spansFromPairs base idx ps).length),
      ((spansFromPairs base idx ps).get ⟨j, hj⟩).sentenceIndex = idx + j := by
  induction ps with
  | nil => intro base idx j hj; simp [spansFromPairs] at hj
  | cons p ps ih =>
      intro base idx j hj
      obtain ⟨txt, sep⟩ := p
      cases j with
      | zero => simp [spansFromPairs]
      | succ j2 =>
          simp only [spansFromPairs, List.length_cons] at hj
          have := ih (base + txt.length + sep.length) (idx + 1) j2 (by omega)
          simp only [spansFromPairs, List.get_cons_succ]
          rw [this]
          omega

lemma sourceTokens_cons (op : ChangeType × String) (ops : List (ChangeType × String)) :
    sourceTokens (op :: ops) =
      if op.1 = ChangeType.insert then sourceTokens ops else op.2 :: sourceTokens ops := by
  by_cases h : op.1 = ChangeType.insert <;> simp [sourceTokens, List.filterMap_cons, h]

lemma targetTokens_cons (op : ChangeType × String) (ops : List (ChangeType × String)) :
    targetTokens (op :: ops) =
      if op.1 = ChangeType.delete then targetTokens ops else op.2 :: targetTokens ops := by
  by_cases h : op.1 = ChangeType.delete <;> simp [targetTokens, List.filterMap_cons, h]

lemma keptOriginalTokens_cons (op : ChangeOp) (ops : List ChangeOp) :
    keptOriginalTokens (op :: ops) =
      if op.type = ChangeType.insert then keptOriginalTokens ops
      else op.text :: keptOriginalTokens ops := by
  by_cases h : op.type = ChangeType.insert <;>
    simp [keptOriginalTokens, List.filterMap_cons, h]

lemma keptCorrectedTokens_cons (op : ChangeOp) (ops : List ChangeOp) :
    keptCorrectedTokens (op :: ops) =
      if op.type = ChangeType.delete then keptCorrectedTokens ops
      else op.text :: keptCorrectedTokens ops := by
  by_cases h : op.type = ChangeType.delete <;>
    simp [keptCorrectedTokens, List.filterMap_cons, h]

lemma diffTokens_sourceTokens (xs ys : List String) :
    sourceTokens (diffTokens xs ys) = xs := by
  induction xs, ys using diffTokens.induct with
  | case1 => simp [diffTokens, sourceTokens]
  | case2 b bs ih => simp [diffTokens, sourceTokens_cons, ih]
  | case3 a as ih => simp [diffTokens, sourceTokens_cons, ih]
  | case4 as b bs ih => simp [diffTokens, sourceTokens_cons, ih]
  | case5 a as b bs h1 h2 ih => simp [diffTokens, h1, h2, sourceTokens_cons, ih]
  | case6 a as b bs h1 h2 ih => simp [diffTokens, h1, h2, sourceTokens_cons, ih]

lemma diffTokens_targetTokens (xs ys : List String) :
    targetTokens (diffTokens xs ys) = ys := by
  induction xs, ys using diffTokens.induct with
  | case1 => simp [diffTokens, targetTokens]
  | case2 b bs ih => simp [diffTokens, targetTokens_cons, ih]
  | case3 a as ih => simp [diffTokens, targetTokens_cons, ih]
  | case4 as b bs ih => simp [diffTokens, targetTokens_cons, ih]
  | case5 a as b bs h1 h2 ih => simp [diffTokens, h1, h2, targetTokens_cons, ih]
  | case6 a as b bs h1 h2 ih => simp [diffTokens, h1, h2, targetTokens_cons, ih]

lemma keptOriginalTokens_addPositionsFrom (ops : List (ChangeType × String)) :
    ∀ n, keptOriginalTokens (addPositionsFrom n ops) = sourceTokens ops := by
  induction ops with
  | nil => intro n; rfl
  | cons op rest ih =>
      intro n
      obtain ⟨t, s⟩ := op
      rw [addPositionsFrom, keptOriginalTokens_cons, sourceTokens_cons, ih (n + 1)]

lemma keptCorrectedTokens_addPositionsFrom (ops : List (ChangeType × String)) :
    ∀ n, keptCorrectedTokens (addPositionsFrom n ops) = targetTokens ops := by
  induction ops with
  | nil => intro n; rfl
  | cons op rest ih =>
      intro n
      obtain ⟨t, s⟩ := op
      rw [addPositionsFrom, keptCorrectedTokens_cons, targetTokens_cons, ih (n + 1)]

lemma diffTokens_run (xs ys : List String) : DiffRun xs ys (diffTokens xs ys) := by
  induction xs, ys using diffTokens.induct with
  | case1 => rw [diffTokens]; exact DiffRun.done
  | case2 b bs ih => rw [diffTokens]; exact DiffRun.insertOnly ih
  | case3 a as ih => rw [diffTokens]; exact DiffRun.deleteOnly ih
  | case4 as b bs ih => rw [diffTokens, if_pos rfl]; exact DiffRun.matched rfl ih
  | case5 a as b bs h1 h2 ih =>
      rw [diffTokens, if_neg h1, if_pos h2]
      exact DiffRun.deleteStep h1 h2 ih
  | case6 a as b bs h1 h2 ih =>
      rw [diffTokens, if_neg h1, if_neg h2]
      exact DiffRun.insertStep h1 (by omega) ih

lemma DiffRun_eq_diffTokens {xs ys : List String} {ops : List (ChangeType × String)}
    (h : DiffRun xs ys ops) : ops = diffTokens xs ys := by
  induction h with
  | done => rw [diffTokens]
  | insertOnly h ih => rw [diffTokens, ih]
  | deleteOnly h ih => rw [diffTokens, ih]
  | matched heq h ih => subst heq; rw [diffTokens, if_pos rfl, ih]
  | deleteStep hne hle h ih => rw [diffTokens, if_neg hne, if_pos hle, ih]
  | insertStep hne hlt h ih =>
      rw [diffTokens, if_neg hne, if_neg (by omega), ih]

lemma assemble_foldl (provider : CorrectionProvider) (spans : List SentenceSpan) :
    ∀ (ds : List SentenceDiff) (n : Nat),
      (spans.foldl
        (fun (acc : List SentenceDiff × Nat) (span : SentenceSpan) =>
          (acc.1 ++ [buildDiff provider span], acc.2 + countNonEqual (buildDiff provider span)))
        (ds, n)) =
      (ds ++ spans.map (buildDiff provider),
       n + ((spans.map (buildDiff provider)).map countNonEqual).sum) := by
  induction spans with
  | nil => intro ds n; simp
  | cons s rest ih =>
      intro ds n
      simp only [List.foldl_cons, List.map_cons, List.sum_cons]
      rw [ih]
      simp [List.append_assoc, Nat.add_assoc]

lemma assemble_sentenceDiffs (provider : CorrectionProvider) (text : String) :
    (assemble provider text).sentenceDiffs =
      (segmentText text.data).map (buildDiff provider) := by
  simp only [assemble]
  rw [assemble_foldl]
  simp

lemma assemble_totalChanges (provider : CorrectionProvider) (text : String) :
    (assemble provider text).totalChanges =
      (((segmentText text.data).map (buildDiff provider)).map countNonEqual).sum := by
  simp only [assemble]
  rw [assemble_foldl]
  simp

lemma segmentText_get_sentenceIndex (T : List Char) (j : Nat)
    (hj : j < (segmentText T).length) :
    ((segmentText T).get ⟨j, hj⟩).sentenceIndex = j := by
  have hj2 : j < (spansFromPairs (T.takeWhile isWsC).length 0 (segAux [] (trimChars T))).length :=
    hj
  have h2 := spansFromPairs_sentenceIndex (segAux [] (trimChars T))
    (T.takeWhile isWsC).length 0 j hj2
  have h3 : ((segmentText T).get ⟨j, hj⟩).sentenceIndex = 0 + j := h2
  omega

/-! ## Claim theorems -/

/-- C1: the caller-level layer validates non-emptiness before the pipeline
runs: when the input is empty after trimming, `proofreadText` alerts and
returns with the state unchanged and no request sent to /api/proofread;
when it is non-empty after trimming, exactly one request is sent. -/
theorem proofreadText_validates_nonempty (st : AppState) (o : FetchOutcome) :
    (jsTrim st.textInputValue = "" →
      proofreadText st o =
        (st, [FrontendEvent.alert "Please enter some text to proofread."])) ∧
    (jsTrim st.textInputValue ≠ "" →
      requestsSent (proofreadText st o).2 = [requestBody (jsTrim st.textInputValue)]) := by
  constructor
  · intro h
    simp [proofreadText, h]
  · intro h
    cases o <;> simp [proofreadText, h, requestsSent]

/-- C1 witness: the empty-after-trim input "  " is rejected with an alert,
and the input " Hi " leads to exactly one request. -/
theorem proofreadText_validates_nonempty_witness :
    proofreadText { (default : AppState) with textInputValue := "  " } FetchOutcome.fetchThrow
        = ({ (default : AppState) with textInputValue := "  " },
           [FrontendEvent.alert "Please enter some text to proofread."]) ∧
    requestsSent (proofreadText { (default : AppState) with textInputValue := " Hi " }
        FetchOutcome.fetchThrow).2 = [requestBody (jsTrim " Hi ")] :=
  ⟨(proofreadText_validates_nonempty _ _).1 (by decide),
   (proofreadText_validates_nonempty _ _).2 (by decide)⟩

/-- C2 counterexample: the request the frontend sends for the input
"Hello" has exactly the fields `text` and `llm_provider`; it has no
`provider` field at all, so the request does not conform to the claimed
ProofreadRequest shape with a `provider` field. -/
theorem proofreadRequest_no_provider_field :
    requestsSent (proofreadText { (default : AppState) with textInputValue := "Hello" }
        (FetchOutcome.ok "Hello" 0)).2
      = [[("text", "Hello"), ("llm_provider", "mock")]] ∧
    (([("text", "Hello"), ("llm_provider", "mock")] : List (String × String)).lookup "provider")
      = none := by
  constructor
  · decide
  · decide

/-- C2 (amended): every request the frontend sends to /api/proofread has a
`text` field equal to the trimmed input and non-empty after trim, and an
`llm_provider` field (not `provider`) whose value is "mock". -/
theorem proofreadRequest_shape (st : AppState) (o : FetchOutcome)
    (b : List (String × String)) (hb : b ∈ requestsSent (proofreadText st o).2) :
    b.lookup "text" = some (jsTrim st.textInputValue) ∧
    jsTrim st.textInputValue ≠ "" ∧
    b.lookup "llm_provider" = some "mock" := by
  by_cases h : jsTrim st.textInputValue = ""
  · simp [proofreadText, h, requestsSent] at hb
  · cases o <;> simp [proofreadText, h, requestsSent] at hb <;>
      subst hb <;>
      exact ⟨rfl, h, rfl⟩

/-- C2 witness: the single request sent for the input "Hello". -/
theorem proofreadRequest_shape_witness :
    (requestBody (jsTrim "Hello")).lookup "text" = some (jsTrim "Hello") ∧
    jsTrim "Hello" ≠ "" ∧
    (requestBody (jsTrim "Hello")).lookup "llm_provider" = some "mock" :=
  proofreadRequest_shape { (default : AppState) with textInputValue := "Hello" }
    (FetchOutcome.ok "x" 0) (requestBody (jsTrim "Hello")) (by decide)

/-- C3: the assembled ProofreadResult carries a finalText field (the
reconstructed text of its sentence diffs) and a totalChanges field equal
to the sum, over all SentenceDiffs, of the count of non-equal ChangeOps. -/
theorem proofreadResult_totalChanges (provider : CorrectionProvider) (text : String) :
    (assemble provider text).finalText =
      reconstructFinal (assemble provider text).sentenceDiffs ∧
    (assemble provider text).totalChanges =
      ((assemble provider text).sentenceDiffs.map countNonEqual).sum := by
  constructor
  · simp only [assemble]
  · rw [assemble_totalChanges, assemble_sentenceDiffs]

/-- C4 counterexample: for the whitespace-only input " ", the segmenter
yields no spans, so reconstruction from spans and inter-span separators
yields the empty text and not the original text. -/
theorem segmenter_reconstruction_cex :
    reconstructSpans [' '] (segmentText [' ']) = [] ∧ ([] : List Char) ≠ [' '] := by
  constructor
  · have h1 : trimChars [' '] = [] := by decide
    rw [segmentText, h1]
    simp [segAux, spansFromPairs, reconstructSpans]
  · decide

/-- C4 (amended): for every input text T, concatenating the spans produced
by the segmenter with the substrings of T between consecutive spans'
offsets reproduces the trimmed text byte-for-byte (hence T itself whenever
T has no leading or trailing whitespace). -/
theorem segmenter_reconstruction (T : List Char) :
    reconstructSpans T (segmentText T) = trimChars T := by
  rw [segmentText]
  have hpairs : concatPairs (segAux [] (trimChars T)) = trimChars T := by
    simpa using segAux_concat [] (trimChars T)
  have hdrop : T.drop (T.takeWhile isWsC).length =
      concatPairs (segAux [] (trimChars T)) ++
        ((T.dropWhile isWsC).reverse.takeWhile isWsC).reverse := by
    rw [hpairs, drop_takeWhile_eq_dropWhile]
    exact dropWhile_eq_trim_append T
  rw [reconstruct_spansFromPairs (segAux [] (trimChars T)) (T.takeWhile isWsC).length 0 T
    ((T.dropWhile isWsC).reverse.takeWhile isWsC).reverse hdrop]
  simpa using segAux_joinSpans [] (trimChars T) (noTrailingWs_trimChars T)

/-- C5: diff completeness: for every sentence pair (O, C), the delete and
equal tokens of wordDiff O C, in emission order, are exactly the
tokenization of O, and the insert and equal tokens are exactly the
tokenization of C. -/
theorem wordDiff_completeness (O C : String) :
    keptOriginalTokens (wordDiff O C) = tokenize O ∧
    keptCorrectedTokens (wordDiff O C) = tokenize C := by
  constructor
  · rw [wordDiff, keptOriginalTokens_addPositionsFrom, diffTokens_sourceTokens]
  · rw [wordDiff, keptCorrectedTokens_addPositionsFrom, diffTokens_targetTokens]

/-- C6: determinism of the word diff: the diff function itself is one run
of the algorithm, and every run of the algorithm (every derivation of the
step relation, which includes the LCS comparisons and the tie-break that
consumes the original sequence first) produces exactly the ChangeOp
sequence wordDiff O C; hence any two runs on the same inputs are
identical, also when several longest common subsequences exist. -/
theorem wordDiff_deterministic (O C : String) :
    DiffRun (tokenize O) (tokenize C) (diffTokens (tokenize O) (tokenize C)) ∧
    ∀ ops, DiffRun (tokenize O) (tokenize C) ops →
      addPositionsFrom 0 ops = wordDiff O C := by
  refine ⟨diffTokens_run _ _, fun ops h => ?_⟩
  rw [DiffRun_eq_diffTokens h, wordDiff]

/-- C6 witness: on the pair ("a b", "b a"), which has the two longest
common subsequences ["a"] and ["b"], any run produces the sequence of
wordDiff "a b" "b a". -/
theorem wordDiff_deterministic_witness :
    addPositionsFrom 0 (diffTokens (tokenize "a b") (tokenize "b a")) = wordDiff "a b" "b a" :=
  (wordDiff_deterministic "a b" "b a").2 _ (wordDiff_deterministic "a b" "b a").1

/-- C7: graceful degradation: if the provider fails for the sentence at
index i, the SentenceDiff at i has corrected equal to original; the
pipeline still returns one SentenceDiff per segmented sentence, with
sentence indices matching positions, covering every other sentence. -/
theorem provider_failure_graceful (provider : CorrectionProvider) (text : String)
    (i : Nat) (hi : i < (assemble provider text).sentenceDiffs.length)
    (hfail : ∃ e, provider (((assemble provider text).sentenceDiffs.getD i default).original)
        = Except.error e) :
    ((assemble provider text).sentenceDiffs.getD i default).corrected =
      ((assemble provider text).sentenceDiffs.getD i default).original ∧
    (assemble provider text).sentenceDiffs.length = (segmentText text.data).length ∧
    ∀ j (hj : j < (assemble provider text).sentenceDiffs.length),
      ((assemble provider text).sentenceDiffs.get ⟨j, hj⟩).sentenceIndex = j := by
  obtain ⟨e, he⟩ := hfail
  have hdiffs := assemble_sentenceDiffs provider text
  have hlen : i < (segmentText text.data).length := by
    rw [hdiffs] at hi
    simpa using hi
  have hget : (assemble provider text).sentenceDiffs.getD i default =
      buildDiff provider ((segmentText text.data).get ⟨i, hlen⟩) := by
    rw [hdiffs, List.getD_eq_get?, List.get?_map, List.get?_eq_get hlen]
    rfl
  refine ⟨?_, by rw [hdiffs]; simp, ?_⟩
  · rw [hget] at he ⊢
    simp only [buildDiff] at he ⊢
    simp only [List.get_eq_getElem] at he
    simp [correctSpan, he]
  · intro j hj
    have hjlen : j < (segmentText text.data).length := by
      rw [hdiffs] at hj
      simpa using hj
    have hjget : (assemble provider text).sentenceDiffs.get ⟨j, hj⟩ =
        buildDiff provider ((segmentText text.data).get ⟨j, hjlen⟩) := by
      have h1 : (assemble provider text).sentenceDiffs.get ⟨j, hj⟩ =
          (assemble provider text).sentenceDiffs.getD j default := by
        rw [List.getD_eq_get?, List.get?_eq_get hj]
        rfl
      rw [h1, hdiffs, List.getD_eq_get?, List.get?_map, List.get?_eq_get hjlen]
      rfl
    rw [hjget]
    simp only [buildDiff]
    exact segmentText_get_sentenceIndex text.data j hjlen

/-- C7 witness: a provider that always fails, on the one-sentence input
"Hi": the resulting diff leaves the sentence unchanged. -/
theorem provider_failure_graceful_witness :
    ((assemble failingProvider "Hi").sentenceDiffs.getD 0 default).corrected =
      ((assemble failingProvider "Hi").sentenceDiffs.getD 0 default).original := by
  have hi : 0 < (assemble failingProvider "Hi").sentenceDiffs.length := by
    rw [assemble_sentenceDiffs, segmentText]
    have h1 : trimChars "Hi".data = ['H', 'i'] := by decide
    rw [h1]
    simp [segAux, spansFromPairs]
  exact (provider_failure_graceful failingProvider "Hi" 0 hi
    ⟨ProviderError.providerUnavailable, rfl⟩).1

/-- C8: for every call that issues a request, whatever the fetch outcome
(success, non-ok status, or thrown error), the final state has the loading
state cleared: the proofread button re-enabled, the label shown and the
spinner hidden (the `finally` block runs `setLoading(false)`). -/
theorem proofreadText_clears_loading (st : AppState) (o : FetchOutcome)
    (h : jsTrim st.textInputValue ≠ "") :
    (proofreadText st o).1.proofreadBtnDisabled = false ∧
    (proofreadText st o).1.btnTextVisible = true ∧
    (proofreadText st o).1.spinnerVisible = false := by
  cases o <;> simp [proofreadText, h, setLoading, showFinalResult]

/-- C8 witness: a non-empty input with a thrown fetch still ends with the
loading state cleared. -/
theorem proofreadText_clears_loading_witness :
    (proofreadText { (default : AppState) with textInputValue := "Hi" }
        FetchOutcome.fetchThrow).1.proofreadBtnDisabled = false ∧
    (proofreadText { (default : AppState) with textInputValue := "Hi" }
        FetchOutcome.fetchThrow).1.btnTextVisible = true ∧
    (proofreadText { (default : AppState) with textInputValue := "Hi" }
        FetchOutcome.fetchThrow).1.spinnerVisible = false :=
  proofreadText_clears_loading _ _ (by decide)

/-- C9: when the response has a non-ok status or the fetch throws,
`proofreadText` emits the error alert and does not reach
`showFinalResult`: the results-section visibility, the corrections-count
label and the final-text display are unchanged from before the call. -/
theorem proofreadText_error_frame (st : AppState) (o : FetchOutcome)
    (herr : (∃ s, o = FetchOutcome.httpError s) ∨ o = FetchOutcome.fetchThrow)
    (h : jsTrim st.textInputValue ≠ "") :
    (proofreadText st o).1.resultsVisible = st.resultsVisible ∧
    (proofreadText st o).1.correctionsCountText = st.correctionsCountText ∧
    (proofreadText st o).1.finalTextContent = st.finalTextContent ∧
    FrontendEvent.alert "An error occurred while proofreading. Please try again."
      ∈ (proofreadText st o).2 := by
  rcases herr with ⟨s, rfl⟩ | rfl <;> simp [proofreadText, h, setLoading]

/-- C9 witness: a 500 response leaves the result display untouched and
alerts. -/
theorem proofreadText_error_frame_witness :
    (proofreadText { (default : AppState) with textInputValue := "Hi" }
        (FetchOutcome.httpError 500)).1.resultsVisible
      = ({ (default : AppState) with textInputValue := "Hi" } : AppState).resultsVisible ∧
    (proofreadText { (default : AppState) with textInputValue := "Hi" }
        (FetchOutcome.httpError 500)).1.correctionsCountText
      = ({ (default : AppState) with textInputValue := "Hi" } : AppState).correctionsCountText ∧
    (proofreadText { (default : AppState) with textInputValue := "Hi" }
        (FetchOutcome.httpError 500)).1.finalTextContent
      = ({ (default : AppState) with textInputValue := "Hi" } : AppState).finalTextContent ∧
    FrontendEvent.alert "An error occurred while proofreading. Please try again."
      ∈ (proofreadText { (default : AppState) with textInputValue := "Hi" }
          (FetchOutcome.httpError 500)).2 :=
  proofreadText_error_frame _ _ (Or.inl ⟨500, rfl⟩) (by decide)

/-- C10: `copyFinalText` copies exactly the text displayed in the
final-text element; the failure alert appears only when the modern
clipboard path did not succeed and the execCommand fallback also fails;
and every run that copies shows the Copied! feedback. -/
theorem copyFinalText_spec (st : AppState) (env : CopyEnv) (t : String) :
    (CopyEvent.copied t ∈ copyFinalText st env → t = st.finalTextContent) ∧
    (CopyEvent.copyFailAlert ∈ copyFinalText st env →
      (env.modernAvailable && env.modernWriteOk) = false ∧ env.execCopyOk = false) ∧
    (CopyEvent.copied t ∈ copyFinalText st env →
      CopyEvent.copySuccessFeedback ∈ copyFinalText st env) := by
  obtain ⟨ma, mw, ex⟩ := env
  cases ma <;> cases mw <;> cases ex <;>
    simp [copyFinalText, copyTextFallback]

/-- C10 witness: with the modern clipboard available and working, the
displayed text is copied and the feedback shown. -/
theorem copyFinalText_spec_witness :
    "abc" = ({ (default : AppState) with finalTextContent := "abc" } : AppState).finalTextContent ∧
    CopyEvent.copySuccessFeedback ∈
      copyFinalText { (default : AppState) with finalTextContent := "abc" } ⟨true, true, true⟩ :=
  ⟨(copyFinalText_spec { (default : AppState) with finalTextContent := "abc" }
      ⟨true, true, true⟩ "abc").1 (by decide),
   (copyFinalText_spec { (default : AppState) with finalTextContent := "abc" }
      ⟨true, true, true⟩ "abc").2.2 (by decide)⟩
